import Mathlib

/-!
Shallow embedding of `src/hillclimbing.py` (repository dedecode/Hill-Climbing).

The Python module defines a neighbor generator for the binary knapsack
problem (`gerar_vizinhos_knapsack`) and a `HillClimbing` class whose
`executar` method runs standard or stochastic hill climbing.

Randomness: Python draws from the global `random` module.  We model the
random source as an infinite sequence of rationals together with a cursor;
`random.random()` consumes one value, and `random.randint(0, n-1)` consumes
one value `q` and maps it into `{0, ..., n-1}` (raising an error when the
range is empty, i.e. `n = 0`, as Python's `randint(0, -1)` does).

Solutions are lists of naturals (binary vectors in all intended uses),
fitness values are integers, probabilities are rationals.  `copy.deepcopy`
on a Python list of numbers is the identity in this value-semantics model.
Fallible calls return `Option`; `none` models a raised exception.
-/

/-- State of the global random source: an infinite stream of draws and a
cursor pointing at the next draw. -/
structure RNG where
  seq : Nat → ℚ
  idx : Nat

/-- Consume one draw (`random.random()`). -/
def RNG.next (r : RNG) : ℚ × RNG :=
  (r.seq r.idx, { seq := r.seq, idx := r.idx + 1 })

/-- Floor of `q * n`, clamped to the naturals: for `0 ≤ q` this is
`⌊q * n⌋` (computed as `(q.num * n) / q.den` in natural division), for
`q < 0` it is `0`. -/
def natFloorMul (q : ℚ) (n : Nat) : Nat := q.num.toNat * n / q.den

/-- `random.randint(0, n - 1)`: consume one draw `q` (intended in `[0, 1)`)
and map it into `{0, ..., n-1}` as `⌊q * n⌋`, reduced mod `n` so that the
result is in range for any draw.  For `n = 0` the range is empty and
Python raises `ValueError`, modelled as `none`. -/
def randint0 (n : Nat) (r : RNG) : Option (Nat × RNG) :=
  if n = 0 then none
  else
    let q := (RNG.next r).1
    some (natFloorMul q n % n, (RNG.next r).2)

/-- `vizinho = solucao.copy(); vizinho[pos] = 1 - vizinho[pos]`
(lines 28-29 of `hillclimbing.py`). -/
def flipAt (s : List Nat) (pos : Nat) : List Nat :=
  s.set pos (1 - s.getD pos 0)

/-- The `for i in range(n_vizinhos)` loop of `gerar_vizinhos_knapsack`
(lines 22-31): `fuel` is the number of remaining loop iterations,
`vizinhos` and `sorted_pos` are the accumulators of the Python code. -/
def gvkAux (solucao : List Nat) :
    Nat → List (List Nat) → List Nat → RNG → Option (List (List Nat) × RNG)
  | 0, vizinhos, _, r => some (vizinhos, r)
  | fuel + 1, vizinhos, sorted_pos, r =>
    match randint0 solucao.length r with
    | none => none
    | some (pos, r') =>
      if pos ∈ sorted_pos then
        gvkAux solucao fuel vizinhos sorted_pos r'
      else
        gvkAux solucao fuel (vizinhos ++ [flipAt solucao pos]) (sorted_pos ++ [pos]) r'

/-- `gerar_vizinhos_knapsack(solucao, n_vizinhos)` (lines 5-33), with the
random source threaded explicitly.  The Python default is
`n_vizinhos = 10`. -/
def gerar_vizinhos_knapsack (solucao : List Nat) (n_vizinhos : Nat) (r : RNG) :
    Option (List (List Nat) × RNG) :=
  gvkAux solucao n_vizinhos [] [] r

/-- Number of positions (below `s.length`) at which `s` and `v` hold
different values; used to state "differs in exactly one position". -/
def diffCount (s v : List Nat) : Nat :=
  ((List.range s.length).filter (fun i => s.getD i 0 != v.getD i 0)).length

/-- `eh_melhor` (lines 88-92): whether the neighbor's fitness strictly
improves on the running best, in the configured direction. -/
def ehMelhor (maximizar : Bool) (fv mf : ℤ) : Bool :=
  if maximizar then decide (mf < fv) else decide (fv < mf)

/-- The `for vizinho in vizinhos` scan (lines 84-101): tracks the running
best neighbor (`melhor`, `mf`, Python's `melhor_vizinho` and
`melhor_fitness_vizinho`); in stochastic mode a non-improving neighbor
whose draw falls below `p` is selected immediately and the scan stops
(`break`).  The draw is consumed only when `estocastico` is true, matching
Python's short-circuit of `estocastico and random.random() < probabilidade_pior`. -/
def scanLoop (fitness : List Nat → ℤ) (maximizar estocastico : Bool) (p : ℚ) :
    List (List Nat) → Option (List Nat) → ℤ → RNG → Option (List Nat) × ℤ × RNG
  | [], melhor, mf, r => (melhor, mf, r)
  | v :: vs, melhor, mf, r =>
    let fv := fitness v
    if ehMelhor maximizar fv mf then
      scanLoop fitness maximizar estocastico p vs (some v) fv r
    else if estocastico then
      let q := (RNG.next r).1
      let r' := (RNG.next r).2
      if q < p then (some v, fv, r')
      else scanLoop fitness maximizar estocastico p vs melhor mf r'
    else
      scanLoop fitness maximizar estocastico p vs melhor mf r

/-- The `while iteracao < max_iteracoes` loop (lines 74-118): `fuel` is the
number of iterations still allowed.  Each iteration generates neighbors,
scans them, and either moves to the selected neighbor (appending its
fitness to the history) or, when no neighbor was selected, terminates via
the convergence branch (lines 112-116) returning the unchanged state.
`none` models an exception raised by the injected generator. -/
def hcLoop (fitness : List Nat → ℤ)
    (gen : List Nat → RNG → Option (List (List Nat) × RNG))
    (maximizar estocastico : Bool) (p : ℚ) :
    Nat → List Nat → ℤ → List ℤ → RNG → Option (List Nat × ℤ × List ℤ × RNG)
  | 0, sol, fit, hist, r => some (sol, fit, hist, r)
  | fuel + 1, sol, fit, hist, r =>
    match gen sol r with
    | none => none
    | some (vizinhos, r1) =>
      match scanLoop fitness maximizar estocastico p vizinhos none fit r1 with
      | (some mv, mf, r2) =>
        hcLoop fitness gen maximizar estocastico p fuel mv mf (hist ++ [mf]) r2
      | (none, _, r2) => some (sol, fit, hist, r2)

/-- `HillClimbing.executar` (lines 50-124): deep-copies the initial
solution (identity on values), evaluates it, starts the history with its
fitness and runs the main loop.  Returns the final solution, fitness,
history, and the final random-source state. -/
def executar (fitness : List Nat → ℤ)
    (gen : List Nat → RNG → Option (List (List Nat) × RNG))
    (maximizar : Bool) (solucao_inicial : List Nat) (max_iteracoes : Nat)
    (estocastico : Bool) (p : ℚ) (r : RNG) :
    Option (List Nat × ℤ × List ℤ × RNG) :=
  let sol := solucao_inicial
  let fit := fitness sol
  hcLoop fitness gen maximizar estocastico p max_iteracoes sol fit [fit] r

/-- Projection of a run result onto the triple Python returns:
`(melhor_solucao, melhor_fitness, historico)`. -/
def resultTriple (o : Option (List Nat × ℤ × List ℤ × RNG)) :
    Option (List Nat × ℤ × List ℤ) :=
  o.map (fun x => (x.1, x.2.1, x.2.2.1))

/-- Fitness comparison in the configured direction: `a` does not worsen to
`b` (`a ≤ b` when maximizing, `b ≤ a` when minimizing). -/
def dirLE (mx : Bool) (a b : ℤ) : Prop := if mx then a ≤ b else b ≤ a

/-- A random source all of whose draws are `0`. -/
def rngZero : RNG := { seq := fun _ => 0, idx := 0 }

/-- Concrete fitness function used for counterexamples and witnesses. -/
def fitC : List Nat → ℤ := fun s => if s = [1, 0] then 5 else if s = [0, 1] then 3 else 0

/-- Concrete generator that always yields the two neighbors
`[1,0]` and `[0,1]` and consumes no randomness. -/
def genC : List Nat → RNG → Option (List (List Nat) × RNG) := fun _ r => some ([[1, 0], [0, 1]], r)

/-- Constantly-zero fitness function. -/
def fitZ : List Nat → ℤ := fun _ => 0

/-- Generator that always yields the single neighbor `[1]`. -/
def genOne : List Nat → RNG → Option (List (List Nat) × RNG) := fun _ r => some ([[1]], r)

/-- Generator that always yields no neighbors. -/
def genNil : List Nat → RNG → Option (List (List Nat) × RNG) := fun _ r => some ([], r)

/-- Fitness `2 * s[0] + s[1]` on length-2 binary vectors. -/
def fit5 : List Nat → ℤ := fun s => 2 * (s.getD 0 0 : ℤ) + (s.getD 1 0 : ℤ)

/-- The knapsack neighbor generator with `n_vizinhos = 2`, drawing from the
shared random source, as an engine collaborator. -/
def genKnap : List Nat → RNG → Option (List (List Nat) × RNG) := fun s r =>
  gerar_vizinhos_knapsack s 2 r

/-- Concrete random source `0, 1/2, 0, 0, 1/2, 0, 0, 0, ...`. -/
def rng5 : RNG := { seq := fun n => [0, mkRat 1 2, 0, 0, mkRat 1 2, 0].getD n 0, idx := 0 }

/-! ### Basic lemmas about the neighbor scan and the main loop -/

lemma scanLoop_seq (fitness : List Nat → ℤ) (mx est : Bool) (p : ℚ)
    (vs : List (List Nat)) :
    ∀ (melhor : Option (List Nat)) (mf : ℤ) (r : RNG),
      ((scanLoop fitness mx est p vs melhor mf r).2.2).seq = r.seq := by
  induction vs with
  | nil => intro melhor mf r; rfl
  | cons v vs ih =>
    intro melhor mf r
    simp only [scanLoop]
    split
    · exact ih (some v) (fitness v) r
    · split
      · split
        · rfl
        · exact ih melhor mf (RNG.next r).2
      · exact ih melhor mf r

lemma scanLoop_isSome (fitness : List Nat → ℤ) (mx est : Bool) (p : ℚ)
    (vs : List (List Nat)) :
    ∀ (melhor : Option (List Nat)) (mf : ℤ) (r : RNG), melhor.isSome = true →
      ((scanLoop fitness mx est p vs melhor mf r).1).isSome = true := by
  induction vs with
  | nil => intro melhor mf r h; exact h
  | cons v vs ih =>
    intro melhor mf r h
    simp only [scanLoop]
    split
    · exact ih (some v) (fitness v) r rfl
    · split
      · split
        · rfl
        · exact ih melhor mf (RNG.next r).2 h
      · exact ih melhor mf r h

lemma scanLoop_isSome_p1 (fitness : List Nat → ℤ) (mx : Bool)
    (v : List Nat) (vs : List (List Nat)) (melhor : Option (List Nat)) (mf : ℤ)
    (r : RNG) (hr : ∀ n, r.seq n < 1) :
    ((scanLoop fitness mx true 1 (v :: vs) melhor mf r).1).isSome = true := by
  simp only [scanLoop]
  split
  · exact scanLoop_isSome fitness mx true 1 vs (some v) (fitness v) r rfl
  · have hq : (RNG.next r).1 < 1 := hr r.idx
    simp [hq]

lemma hcLoop_getLast (fitness : List Nat → ℤ)
    (gen : List Nat → RNG → Option (List (List Nat) × RNG))
    (mx est : Bool) (p : ℚ) :
    ∀ (fuel : Nat) (sol : List Nat) (fit : ℤ) (hist : List ℤ) (r : RNG)
      (s : List Nat) (f : ℤ) (h : List ℤ) (r' : RNG),
      hist.getLast? = some fit →
      hcLoop fitness gen mx est p fuel sol fit hist r = some (s, f, h, r') →
      h.getLast? = some f := by
  intro fuel
  induction fuel with
  | zero =>
    intro sol fit hist r s f h r' hlast hrun
    simp only [hcLoop, Option.some.injEq, Prod.mk.injEq] at hrun
    obtain ⟨h1, h2, h3, h4⟩ := hrun
    subst h1; subst h2; subst h3
    exact hlast
  | succ fuel ih =>
    intro sol fit hist r s f h r' hlast hrun
    simp only [hcLoop] at hrun
    split at hrun
    · exact absurd hrun (by simp)
    · split at hrun
      · exact ih _ _ _ _ _ _ _ _ (List.getLast?_concat hist) hrun
      · simp only [Option.some.injEq, Prod.mk.injEq] at hrun
        obtain ⟨h1, h2, h3, h4⟩ := hrun
        subst h1; subst h2; subst h3
        exact hlast

lemma dirLE_refl (mx : Bool) (a : ℤ) : dirLE mx a a := by
  cases mx <;> simp [dirLE]

lemma dirLE_trans {mx : Bool} {a b c : ℤ} (h1 : dirLE mx a b) (h2 : dirLE mx b c) :
    dirLE mx a c := by
  cases mx <;> simp [dirLE] at h1 h2 ⊢ <;> omega

lemma ehMelhor_dirLE {mx : Bool} {fv mf : ℤ} (h : ehMelhor mx fv mf = true) :
    dirLE mx mf fv := by
  cases mx <;> simp [ehMelhor, dirLE] at h ⊢ <;> omega

lemma scanLoop_dirLE (fitness : List Nat → ℤ) (mx : Bool) (p : ℚ)
    (vs : List (List Nat)) :
    ∀ (melhor : Option (List Nat)) (mf : ℤ) (r : RNG),
      dirLE mx mf (scanLoop fitness mx false p vs melhor mf r).2.1 := by
  induction vs with
  | nil => intro melhor mf r; exact dirLE_refl mx mf
  | cons v vs ih =>
    intro melhor mf r
    simp only [scanLoop]
    split
    · next hb => exact dirLE_trans (ehMelhor_dirLE hb) (ih (some v) (fitness v) r)
    · exact ih melhor mf r

lemma hcLoop_chain (fitness : List Nat → ℤ)
    (gen : List Nat → RNG → Option (List (List Nat) × RNG)) (mx : Bool) (p : ℚ) :
    ∀ (fuel : Nat) (sol : List Nat) (fit : ℤ) (hist : List ℤ) (r : RNG)
      (s : List Nat) (f : ℤ) (h : List ℤ) (r' : RNG),
      List.Chain' (dirLE mx) hist → hist.getLast? = some fit →
      hcLoop fitness gen mx false p fuel sol fit hist r = some (s, f, h, r') →
      List.Chain' (dirLE mx) h := by
  intro fuel
  induction fuel with
  | zero =>
    intro sol fit hist r s f h r' hc hlast hrun
    simp only [hcLoop, Option.some.injEq, Prod.mk.injEq] at hrun
    obtain ⟨h1, h2, h3, h4⟩ := hrun
    subst h3
    exact hc
  | succ fuel ih =>
    intro sol fit hist r s f h r' hc hlast hrun
    rcases hg : gen sol r with _ | ⟨ns, r1⟩
    · simp only [hcLoop, hg] at hrun
      exact absurd hrun (by simp)
    · simp only [hcLoop, hg] at hrun
      rcases hscan : scanLoop fitness mx false p ns none fit r1 with ⟨melhor, mf, r2⟩
      simp only [hscan] at hrun
      cases melhor with
      | some mv =>
        have hd : dirLE mx fit mf := by
          have hsc := scanLoop_dirLE fitness mx p ns none fit r1
          rw [hscan] at hsc
          exact hsc
        have hchain : List.Chain' (dirLE mx) (hist ++ [mf]) := by
          rw [List.chain'_append]
          refine ⟨hc, List.chain'_singleton mf, ?_⟩
          intro x hx y hy
          rw [hlast] at hx
          simp only [Option.mem_def, Option.some.injEq] at hx
          simp only [List.head?_cons, Option.mem_def, Option.some.injEq] at hy
          subst hx; subst hy
          exact hd
        exact ih _ _ _ _ _ _ _ _ hchain (List.getLast?_concat hist) hrun
      | none =>
        simp only [Option.some.injEq, Prod.mk.injEq] at hrun
        obtain ⟨h1, h2, h3, h4⟩ := hrun
        subst h3
        exact hc

lemma hcLoop_len_p1 (fitness : List Nat → ℤ)
    (gen : List Nat → RNG → Option (List (List Nat) × RNG)) (mx : Bool)
    (hgen : ∀ s r, ∃ ns r', gen s r = some (ns, r') ∧ ns ≠ [] ∧ r'.seq = r.seq) :
    ∀ (fuel : Nat) (sol : List Nat) (fit : ℤ) (hist : List ℤ) (r : RNG),
      (∀ n, r.seq n < 1) →
      ∃ s f h r', hcLoop fitness gen mx true 1 fuel sol fit hist r = some (s, f, h, r')
        ∧ h.length = hist.length + fuel := by
  intro fuel
  induction fuel with
  | zero => intro sol fit hist r _; exact ⟨sol, fit, hist, r, rfl, rfl⟩
  | succ fuel ih =>
    intro sol fit hist r hr
    obtain ⟨ns, r1, hg, hne, hseq⟩ := hgen sol r
    have hr1 : ∀ n, r1.seq n < 1 := by intro n; rw [hseq]; exact hr n
    obtain ⟨v, vs, hvs⟩ : ∃ v vs, ns = v :: vs := by
      cases ns with
      | nil => exact absurd rfl hne
      | cons a l => exact ⟨a, l, rfl⟩
    subst hvs
    rcases hscan : scanLoop fitness mx true 1 (v :: vs) none fit r1 with ⟨melhor, mf, r2⟩
    have hsome : melhor.isSome = true := by
      have hs := scanLoop_isSome_p1 fitness mx v vs none fit r1 hr1
      rw [hscan] at hs
      exact hs
    obtain ⟨mv, hmv⟩ := Option.isSome_iff_exists.mp hsome
    subst hmv
    have hr2 : ∀ n, r2.seq n < 1 := by
      have hs := scanLoop_seq fitness mx true 1 (v :: vs) none fit r1
      rw [hscan] at hs
      intro n; rw [hs]; exact hr1 n
    obtain ⟨s, f, h, r', hrun, hlen⟩ := ih mv mf (hist ++ [mf]) r2 hr2
    refine ⟨s, f, h, r', ?_, ?_⟩
    · simp only [hcLoop, hg, hscan]
      exact hrun
    · simp only [List.length_append, List.length_cons, List.length_nil] at hlen
      omega

lemma hcLoop_total_len (fitness : List Nat → ℤ)
    (gen : List Nat → RNG → Option (List (List Nat) × RNG))
    (mx est : Bool) (p : ℚ)
    (hgen : ∀ s r, (gen s r).isSome = true) :
    ∀ (fuel : Nat) (sol : List Nat) (fit : ℤ) (hist : List ℤ) (r : RNG),
      ∃ s f h r', hcLoop fitness gen mx est p fuel sol fit hist r = some (s, f, h, r')
        ∧ h.length ≤ hist.length + fuel := by
  intro fuel
  induction fuel with
  | zero => intro sol fit hist r; exact ⟨sol, fit, hist, r, rfl, Nat.le_refl _⟩
  | succ fuel ih =>
    intro sol fit hist r
    obtain ⟨⟨ns, r1⟩, hg⟩ := Option.isSome_iff_exists.mp (hgen sol r)
    rcases hscan : scanLoop fitness mx est p ns none fit r1 with ⟨melhor, mf, r2⟩
    cases melhor with
    | some mv =>
      obtain ⟨s, f, h, r', hrun, hlen⟩ := ih mv mf (hist ++ [mf]) r2
      refine ⟨s, f, h, r', ?_, ?_⟩
      · simp only [hcLoop, hg, hscan]
        exact hrun
      · simp only [List.length_append, List.length_cons, List.length_nil] at hlen
        omega
    | none =>
      refine ⟨sol, fit, hist, r2, ?_, ?_⟩
      · simp only [hcLoop, hg, hscan]
      · omega

lemma scanLoop_p0 (fitness : List Nat → ℤ) (mx : Bool) (vs : List (List Nat)) :
    ∀ (melhor : Option (List Nat)) (mf : ℤ) (r rb : RNG), (∀ n, 0 ≤ r.seq n) →
      (scanLoop fitness mx true 0 vs melhor mf r).1
          = (scanLoop fitness mx false 0 vs melhor mf rb).1
        ∧ (scanLoop fitness mx true 0 vs melhor mf r).2.1
          = (scanLoop fitness mx false 0 vs melhor mf rb).2.1 := by
  induction vs with
  | nil => intro melhor mf r rb _; exact ⟨rfl, rfl⟩
  | cons v vs ih =>
    intro melhor mf r rb hr
    simp only [scanLoop]
    split
    · exact ih (some v) (fitness v) r rb hr
    · have hq : ¬ ((RNG.next r).1 < 0) := not_lt.mpr (hr r.idx)
      simp only [if_pos rfl, if_neg hq]
      exact ih melhor mf (RNG.next r).2 rb (fun n => hr n)

lemma hcLoop_p0 (fitness : List Nat → ℤ) (G : List Nat → List (List Nat)) (mx : Bool) :
    ∀ (fuel : Nat) (sol : List Nat) (fit : ℤ) (hist : List ℤ) (r rb : RNG),
      (∀ n, 0 ≤ r.seq n) →
      resultTriple (hcLoop fitness (fun s rr => some (G s, rr)) mx true 0 fuel sol fit hist r)
        = resultTriple (hcLoop fitness (fun s rr => some (G s, rr)) mx false 0 fuel sol fit hist rb) := by
  intro fuel
  induction fuel with
  | zero => intro sol fit hist r rb _; rfl
  | succ fuel ih =>
    intro sol fit hist r rb hr
    simp only [hcLoop]
    rcases hscan : scanLoop fitness mx true 0 (G sol) none fit r with ⟨melhor, mf, ra⟩
    rcases hscan2 : scanLoop fitness mx false 0 (G sol) none fit rb with ⟨melhor2, mf2, rb2⟩
    have hp := scanLoop_p0 fitness mx (G sol) none fit r rb hr
    rw [hscan, hscan2] at hp
    obtain ⟨hfst, hsnd⟩ := hp
    subst hfst; subst hsnd
    have hra : ∀ n, 0 ≤ ra.seq n := by
      have hs := scanLoop_seq fitness mx true 0 (G sol) none fit r
      rw [hscan] at hs
      intro n; rw [hs]; exact hr n
    cases melhor with
    | some mv => exact ih mv mf (hist ++ [mf]) ra rb2 hra
    | none => rfl

/-! ### Lemmas about the knapsack neighbor generator -/

lemma flipAt_length (s : List Nat) (p : Nat) : (flipAt s p).length = s.length := by
  simp [flipAt]

lemma getD_flipAt_self (s : List Nat) (p : Nat) (hp : p < s.length) :
    (flipAt s p).getD p 0 = 1 - s.getD p 0 := by
  simp [flipAt, List.getD, List.getElem?_set_self hp]

lemma getD_flipAt_ne (s : List Nat) (p i : Nat) (hip : i ≠ p) :
    (flipAt s p).getD i 0 = s.getD i 0 := by
  simp [flipAt, List.getD, List.getElem?_set_ne (fun h => hip h.symm)]

lemma range_filter_beq (p : Nat) : ∀ (n : Nat), p < n →
    (List.range n).filter (fun i => i == p) = [p] := by
  intro n
  induction n with
  | zero => intro h; omega
  | succ n ihn =>
    intro hp
    rw [List.range_succ, List.filter_append]
    by_cases h : p < n
    · have hnp : (n == p) = false := by simp; omega
      rw [ihn h]
      simp [hnp]
    · have hpn : p = n := by omega
      subst hpn
      have h1 : (List.range p).filter (fun i => i == p) = [] := by
        apply List.filter_eq_nil_iff.mpr
        intro a ha
        simp only [List.mem_range] at ha
        simp
        omega
      rw [h1]
      simp

lemma diffCount_flipAt (s : List Nat) (p : Nat) (hp : p < s.length) :
    diffCount s (flipAt s p) = 1 := by
  unfold diffCount
  have hcong : ∀ i ∈ List.range s.length,
      (s.getD i 0 != (flipAt s p).getD i 0) = (i == p) := by
    intro i hi
    by_cases hip : i = p
    · subst hip
      rw [getD_flipAt_self s i hp]
      simp only [beq_self_eq_true, bne_iff_ne, ne_eq]
      omega
    · rw [getD_flipAt_ne s p i hip]
      simp [hip]
  rw [List.filter_congr hcong, range_filter_beq p s.length hp]
  rfl

lemma randint0_pos (n : Nat) (hn : n ≠ 0) (r : RNG) :
    ∃ pos, randint0 n r = some (pos, (RNG.next r).2) ∧ pos < n := by
  refine ⟨natFloorMul (RNG.next r).1 n % n, ?_, Nat.mod_lt _ (Nat.pos_of_ne_zero hn)⟩
  simp [randint0, hn]

lemma gvkAux_spec (s : List Nat) (hs : s.length ≠ 0) :
    ∀ (fuel : Nat) (ps : List Nat) (r : RNG), ps.Nodup → (∀ p ∈ ps, p < s.length) →
      ∃ (qs : List Nat) (r' : RNG),
        gvkAux s fuel (ps.map (flipAt s)) ps r = some (qs.map (flipAt s), r')
        ∧ qs.Nodup ∧ (∀ p ∈ qs, p < s.length) ∧ qs.length ≤ ps.length + fuel := by
  intro fuel
  induction fuel with
  | zero =>
    intro ps r hnd hlt
    exact ⟨ps, r, rfl, hnd, hlt, Nat.le_refl _⟩
  | succ fuel ih =>
    intro ps r hnd hlt
    obtain ⟨pos, hrand, hpos⟩ := randint0_pos s.length hs r
    by_cases hmem : pos ∈ ps
    · obtain ⟨qs, r', hrun, h1, h2, h3⟩ := ih ps (RNG.next r).2 hnd hlt
      refine ⟨qs, r', ?_, h1, h2, by omega⟩
      simp only [gvkAux, hrand, if_pos hmem]
      exact hrun
    · have hnd' : (ps ++ [pos]).Nodup := by
        simp [List.nodup_append, hnd, hmem]
      have hlt' : ∀ p ∈ ps ++ [pos], p < s.length := by
        intro p hp
        rcases List.mem_append.mp hp with h | h
        · exact hlt p h
        · simp only [List.mem_singleton] at h
          subst h
          exact hpos
      obtain ⟨qs, r', hrun, h1, h2, h3⟩ := ih (ps ++ [pos]) (RNG.next r).2 hnd' hlt'
      rw [List.map_append] at hrun
      refine ⟨qs, r', ?_, h1, h2, ?_⟩
      · simp only [gvkAux, hrand, if_neg hmem]
        exact hrun
      · simp only [List.length_append, List.length_cons, List.length_nil] at h3
        omega

lemma gvk_spec (s : List Nat) (hs : s ≠ []) (n : Nat) (r : RNG) :
    ∃ (qs : List Nat) (r' : RNG),
      gerar_vizinhos_knapsack s n r = some (qs.map (flipAt s), r')
      ∧ qs.Nodup ∧ (∀ p ∈ qs, p < s.length) ∧ qs.length ≤ n := by
  have hlen : s.length ≠ 0 := fun h => hs (List.length_eq_zero.mp h)
  obtain ⟨qs, r', hrun, h1, h2, h3⟩ :=
    gvkAux_spec s hlen n [] r List.nodup_nil (by intro p hp; cases hp)
  exact ⟨qs, r', hrun, h1, h2, by simpa using h3⟩

lemma gvk_none_of_nil (n : Nat) (hn : 1 ≤ n) (r : RNG) :
    gerar_vizinhos_knapsack [] n r = none := by
  cases n with
  | zero => omega
  | succ m => simp [gerar_vizinhos_knapsack, gvkAux, randint0]

/-! ### Claims -/

/-- C1, counterexample: in stochastic mode with `probabilidade_pior = 1.0`
and a generator that always yields at least one neighbor, the engine does
NOT always accept the first neighbor scanned.  Concretely: from `[0,0]`
(fitness 0), the generator yields first `[1,0]` (fitness 5, improving,
therefore tracked without a draw) and then `[0,1]` (fitness 3,
non-improving, stochastically accepted).  The move target of the only
iteration is `[0,1]`, not the first scanned neighbor `[1,0]`. -/
theorem C1_counterexample :
    resultTriple (executar fitC genC true [0, 0] 1 true 1 rngZero) = some ([0, 1], 3, [0, 3])
    ∧ genC [0, 0] rngZero = some ([[1, 0], [0, 1]], rngZero)
    ∧ ([0, 1] : List Nat) ≠ [1, 0] :=
  ⟨by decide, rfl, by decide⟩

/-- C1, amended: in stochastic mode with worse-acceptance probability 1.0
(all draws below 1) and a generator that always yields at least one
neighbor, the engine selects SOME neighbor in every iteration (the first
non-improving neighbor scanned, or the tracked improving one), so the run
terminates only when the iteration count reaches `max_iteracoes`, never by
the no-neighbor-selected convergence branch: the returned history has
exactly `max_iteracoes + 1` entries. -/
theorem C1_theorem (fitness : List Nat → ℤ)
    (gen : List Nat → RNG → Option (List (List Nat) × RNG)) (mx : Bool)
    (sol0 : List Nat) (mi : Nat) (r : RNG)
    (hgen : ∀ s rr, ∃ ns r', gen s rr = some (ns, r') ∧ ns ≠ [] ∧ r'.seq = rr.seq)
    (hr : ∀ n, r.seq n < 1) :
    ∃ s f h r', executar fitness gen mx sol0 mi true 1 r = some (s, f, h, r')
      ∧ h.length = mi + 1 := by
  obtain ⟨s, f, h, r', hrun, hlen⟩ :=
    hcLoop_len_p1 fitness gen mx hgen mi sol0 (fitness sol0) [fitness sol0] r hr
  refine ⟨s, f, h, r', hrun, ?_⟩
  simp only [List.length_cons, List.length_nil] at hlen
  omega

/-- Witness for C1_theorem at a concrete input: constant generator
yielding `[[1]]`, all-zero random source, two iterations. -/
theorem C1_witness :
    (∀ s rr, ∃ ns r', genOne s rr = some (ns, r') ∧ ns ≠ [] ∧ r'.seq = rr.seq)
    ∧ (∀ n, rngZero.seq n < 1)
    ∧ ∃ s f h r', executar fitZ genOne true [0] 2 true 1 rngZero = some (s, f, h, r')
        ∧ h.length = 2 + 1 :=
  ⟨fun _ rr => ⟨[[1]], rr, rfl, by decide, rfl⟩,
   fun _ => by norm_num [rngZero],
   C1_theorem fitZ genOne true [0] 2 rngZero
     (fun _ rr => ⟨[[1]], rr, rfl, by decide, rfl⟩)
     (fun _ => by norm_num [rngZero])⟩

/-- C2: in stochastic mode, when a neighbor `v` is non-improving with
respect to the running best and its uniform draw falls below
`probabilidade_pior`, `v` is immediately selected as the move target with
its fitness and the scan is aborted after consuming exactly that one draw:
the result does not depend on the remaining neighbors `rest`, so no later
neighbor is evaluated or can replace it. -/
theorem C2_theorem (fitness : List Nat → ℤ) (mx : Bool) (p : ℚ) (v : List Nat)
    (rest : List (List Nat)) (melhor : Option (List Nat)) (mf : ℤ) (r : RNG)
    (h1 : ehMelhor mx (fitness v) mf = false)
    (h2 : (RNG.next r).1 < p) :
    scanLoop fitness mx true p (v :: rest) melhor mf r = (some v, fitness v, (RNG.next r).2) := by
  simp [scanLoop, h1, h2]

/-- Witness for C2_theorem at a concrete input. -/
theorem C2_witness :
    ehMelhor true (fitZ []) 0 = false
    ∧ (RNG.next rngZero).1 < 1
    ∧ scanLoop fitZ true true 1 ([] :: [[1]]) none 0 rngZero
        = (some [], fitZ [], (RNG.next rngZero).2) :=
  ⟨by decide, by norm_num [rngZero, RNG.next],
   C2_theorem fitZ true 1 [] [[1]] none 0 rngZero (by decide)
     (by norm_num [rngZero, RNG.next])⟩

/-- C3: at every point of a run (every state of the main loop whose
history ends with the current fitness, which holds from initialization
onward), the history returned by the loop still ends with the returned
fitness; in particular for every completed `executar` call the final
fitness equals the last history entry. -/
theorem C3_theorem :
    (∀ (fitness : List Nat → ℤ) (gen : List Nat → RNG → Option (List (List Nat) × RNG))
       (mx est : Bool) (p : ℚ) (fuel : Nat) (sol : List Nat) (fit : ℤ) (hist : List ℤ)
       (r : RNG) (s : List Nat) (f : ℤ) (h : List ℤ) (r' : RNG),
       hist.getLast? = some fit →
       hcLoop fitness gen mx est p fuel sol fit hist r = some (s, f, h, r') →
       h.getLast? = some f)
    ∧ (∀ (fitness : List Nat → ℤ) (gen : List Nat → RNG → Option (List (List Nat) × RNG))
       (mx : Bool) (sol0 : List Nat) (mi : Nat) (est : Bool) (p : ℚ) (r : RNG)
       (s : List Nat) (f : ℤ) (h : List ℤ) (r' : RNG),
       executar fitness gen mx sol0 mi est p r = some (s, f, h, r') →
       h.getLast? = some f) := by
  constructor
  · intro fitness gen mx est p fuel sol fit hist r s f h r' hlast hrun
    exact hcLoop_getLast fitness gen mx est p fuel sol fit hist r s f h r' hlast hrun
  · intro fitness gen mx sol0 mi est p r s f h r' hrun
    exact hcLoop_getLast fitness gen mx est p mi sol0 (fitness sol0)
      [fitness sol0] r s f h r' rfl hrun

/-- Witness for C3_theorem at a concrete standard-mode run. -/
theorem C3_witness :
    executar fitC genC true [0, 0] 1 false 0 rngZero = some ([1, 0], 5, [0, 5], rngZero)
    ∧ ([0, 5] : List ℤ).getLast? = some 5 := by
  have hrun : executar fitC genC true [0, 0] 1 false 0 rngZero
      = some ([1, 0], 5, [0, 5], rngZero) := by rfl
  exact ⟨hrun, C3_theorem.2 fitC genC true [0, 0] 1 false 0 rngZero [1, 0] 5 [0, 5] rngZero hrun⟩

/-- C4: in non-stochastic mode, the returned history is monotonically
non-decreasing when maximizing and non-increasing when minimizing
(adjacent history entries are related by `dirLE mx`). -/
theorem C4_theorem (fitness : List Nat → ℤ)
    (gen : List Nat → RNG → Option (List (List Nat) × RNG)) (mx : Bool)
    (sol0 : List Nat) (mi : Nat) (p : ℚ) (r : RNG)
    (s : List Nat) (f : ℤ) (h : List ℤ) (r' : RNG)
    (hrun : executar fitness gen mx sol0 mi false p r = some (s, f, h, r')) :
    List.Chain' (dirLE mx) h :=
  hcLoop_chain fitness gen mx p mi sol0 (fitness sol0) [fitness sol0] r s f h r'
    (List.chain'_singleton _) rfl hrun

/-- Witness for C4_theorem at a concrete standard-mode run. -/
theorem C4_witness :
    executar fitC genC true [0, 0] 1 false 0 rngZero = some ([1, 0], 5, [0, 5], rngZero)
    ∧ List.Chain' (dirLE true) [0, 5] := by
  have hrun : executar fitC genC true [0, 0] 1 false 0 rngZero
      = some ([1, 0], 5, [0, 5], rngZero) := by rfl
  exact ⟨hrun, C4_theorem fitC genC true [0, 0] 1 0 rngZero [1, 0] 5 [0, 5] rngZero hrun⟩

/-- C5, counterexample: with the knapsack generator drawing from the same
shared random source, a stochastic run with `probabilidade_pior = 0.0` is
NOT identical to a standard-mode run from the same initial random-source
state.  The stochastic run consumes one extra draw per non-improving
neighbor scanned, desynchronizing the generator: from `[0,0]` with fitness
`2*s[0] + s[1]` and draw stream `0, 1/2, 0, 0, 1/2, 0, ...`, the
stochastic run returns `([1,1], 3, [0,2,3])` while the standard run
converges at `([1,0], 2, [0,2])`. -/
theorem C5_counterexample :
    resultTriple (executar fit5 genKnap true [0, 0] 2 true 0 rng5) = some ([1, 1], 3, [0, 2, 3])
    ∧ resultTriple (executar fit5 genKnap true [0, 0] 2 false 0 rng5) = some ([1, 0], 2, [0, 2])
    ∧ resultTriple (executar fit5 genKnap true [0, 0] 2 true 0 rng5)
        ≠ resultTriple (executar fit5 genKnap true [0, 0] 2 false 0 rng5) :=
  ⟨by decide, by decide, by decide⟩

/-- C5, amended: a stochastic run with `probabilidade_pior = 0.0` selects
the same move as the standard-mode run in every iteration and produces the
same final solution, fitness and history, PROVIDED the neighbor generator
does not consume the shared random source (here: a pure generator `G`
threaded through unchanged); with a randomness-consuming generator such as
`gerar_vizinhos_knapsack` the extra acceptance draws can desynchronize the
source and the runs may differ (see the counterexample). -/
theorem C5_theorem (fitness : List Nat → ℤ) (G : List Nat → List (List Nat)) (mx : Bool)
    (sol0 : List Nat) (mi : Nat) (r : RNG) (hr : ∀ n, 0 ≤ r.seq n) :
    resultTriple (executar fitness (fun s rr => some (G s, rr)) mx sol0 mi true 0 r)
      = resultTriple (executar fitness (fun s rr => some (G s, rr)) mx sol0 mi false 0 r) :=
  hcLoop_p0 fitness G mx mi sol0 (fitness sol0) [fitness sol0] r r hr

/-- Witness for C5_theorem at a concrete input. -/
theorem C5_witness :
    (∀ n, 0 ≤ rngZero.seq n)
    ∧ resultTriple (executar fitC (fun _ rr => some ([[1, 0]], rr)) true [0, 0] 1 true 0 rngZero)
        = resultTriple (executar fitC (fun _ rr => some ([[1, 0]], rr)) true [0, 0] 1 false 0 rngZero) :=
  ⟨fun _ => by norm_num [rngZero],
   C5_theorem fitC (fun _ => [[1, 0]]) true [0, 0] 1 rngZero (fun _ => by norm_num [rngZero])⟩

/-- C6: for every non-empty solution `s` and requested count `n`,
`gerar_vizinhos_knapsack` returns a list of at most `n` neighbors, each of
the same length as `s` and differing from `s` in exactly one position, and
the flipped positions are pairwise distinct within the call (the returned
list is the image of a duplicate-free list of in-range positions under the
single-bit flip). -/
theorem C6_theorem (s : List Nat) (n : Nat) (r : RNG) (hs : s ≠ []) :
    ∃ (vs : List (List Nat)) (r' : RNG),
      gerar_vizinhos_knapsack s n r = some (vs, r')
      ∧ vs.length ≤ n
      ∧ (∀ v ∈ vs, v.length = s.length ∧ diffCount s v = 1)
      ∧ ∃ (ps : List Nat), ps.Nodup ∧ (∀ p ∈ ps, p < s.length) ∧ vs = ps.map (flipAt s) := by
  obtain ⟨qs, r', hrun, h1, h2, h3⟩ := gvk_spec s hs n r
  refine ⟨qs.map (flipAt s), r', hrun, by simpa using h3, ?_, qs, h1, h2, rfl⟩
  intro v hv
  obtain ⟨p, hp, hfp⟩ := List.mem_map.mp hv
  subst hfp
  exact ⟨flipAt_length s p, diffCount_flipAt s p (h2 p hp)⟩

/-- Witness for C6_theorem at a concrete input. -/
theorem C6_witness :
    ([0] : List Nat) ≠ []
    ∧ ∃ (vs : List (List Nat)) (r' : RNG),
        gerar_vizinhos_knapsack [0] 1 rngZero = some (vs, r')
        ∧ vs.length ≤ 1
        ∧ (∀ v ∈ vs, v.length = ([0] : List Nat).length ∧ diffCount [0] v = 1)
        ∧ ∃ (ps : List Nat), ps.Nodup ∧ (∀ p ∈ ps, p < ([0] : List Nat).length)
            ∧ vs = ps.map (flipAt [0]) :=
  ⟨by decide, C6_theorem [0] 1 rngZero (by decide)⟩

/-- C7: for every call with a generator that always returns (no raised
exception), the run terminates with a result and the returned history has
at most `max_iteracoes + 1` entries. -/
theorem C7_theorem (fitness : List Nat → ℤ)
    (gen : List Nat → RNG → Option (List (List Nat) × RNG))
    (mx est : Bool) (p : ℚ) (sol0 : List Nat) (mi : Nat) (r : RNG)
    (hgen : ∀ s rr, (gen s rr).isSome = true) :
    ∃ s f h r', executar fitness gen mx sol0 mi est p r = some (s, f, h, r')
      ∧ h.length ≤ mi + 1 := by
  obtain ⟨s, f, h, r', hrun, hlen⟩ :=
    hcLoop_total_len fitness gen mx est p hgen mi sol0 (fitness sol0) [fitness sol0] r
  refine ⟨s, f, h, r', hrun, ?_⟩
  simp only [List.length_cons, List.length_nil] at hlen
  omega

/-- Witness for C7_theorem at a concrete input. -/
theorem C7_witness :
    (∀ s rr, (genC s rr).isSome = true)
    ∧ ∃ s f h r', executar fitC genC true [0, 0] 1 false 0 rngZero = some (s, f, h, r')
        ∧ h.length ≤ 1 + 1 :=
  ⟨fun _ _ => rfl,
   C7_theorem fitC genC true false 0 [0, 0] 1 rngZero (fun _ _ => rfl)⟩

/-- C9: if the injected generator returns an empty collection in some
iteration (any mode, any `probabilidade_pior`), the run terminates
immediately in that iteration via the convergence branch, returning the
unchanged current solution, fitness, and history accumulated so far; in
particular an `executar` call whose first iteration sees no neighbors
returns the initial solution, its fitness and the single-entry history. -/
theorem C9_theorem :
    (∀ (fitness : List Nat → ℤ) (gen : List Nat → RNG → Option (List (List Nat) × RNG))
       (mx est : Bool) (p : ℚ) (fuel : Nat) (sol : List Nat) (fit : ℤ) (hist : List ℤ)
       (r r1 : RNG),
       gen sol r = some ([], r1) →
       hcLoop fitness gen mx est p (fuel + 1) sol fit hist r = some (sol, fit, hist, r1))
    ∧ (∀ (fitness : List Nat → ℤ) (gen : List Nat → RNG → Option (List (List Nat) × RNG))
       (mx est : Bool) (p : ℚ) (sol0 : List Nat) (mi : Nat) (r r1 : RNG),
       0 < mi → gen sol0 r = some ([], r1) →
       executar fitness gen mx sol0 mi est p r
         = some (sol0, fitness sol0, [fitness sol0], r1)) := by
  have key : ∀ (fitness : List Nat → ℤ) (gen : List Nat → RNG → Option (List (List Nat) × RNG))
      (mx est : Bool) (p : ℚ) (fuel : Nat) (sol : List Nat) (fit : ℤ) (hist : List ℤ)
      (r r1 : RNG), gen sol r = some ([], r1) →
      hcLoop fitness gen mx est p (fuel + 1) sol fit hist r = some (sol, fit, hist, r1) := by
    intro fitness gen mx est p fuel sol fit hist r r1 hg
    simp only [hcLoop, hg, scanLoop]
  refine ⟨key, ?_⟩
  intro fitness gen mx est p sol0 mi r r1 hmi hg
  obtain ⟨m, hm⟩ : ∃ m, mi = m + 1 := ⟨mi - 1, by omega⟩
  subst hm
  exact key fitness gen mx est p m sol0 (fitness sol0) [fitness sol0] r r1 hg

/-- Witness for C9_theorem at a concrete input. -/
theorem C9_witness :
    genNil [0] rngZero = some ([], rngZero)
    ∧ (0 : Nat) < 1
    ∧ executar fitZ genNil true [0] 1 true 1 rngZero
        = some ([0], fitZ [0], [fitZ [0]], rngZero) :=
  ⟨rfl, by decide,
   C9_theorem.2 fitZ genNil true true 1 [0] 1 rngZero rngZero (by decide) rfl⟩

/-- C10: `gerar_vizinhos_knapsack` always returns a result for every
non-empty input solution, but for the empty solution (with at least one
neighbor requested, as with the default `n_vizinhos = 10`) the first
random position draw is over an empty range and the call raises an error
(`none`) instead of returning. -/
theorem C10_theorem :
    (∀ (s : List Nat) (n : Nat) (r : RNG), s ≠ [] →
       (gerar_vizinhos_knapsack s n r).isSome = true)
    ∧ (∀ (n : Nat) (r : RNG), 1 ≤ n → gerar_vizinhos_knapsack [] n r = none) := by
  constructor
  · intro s n r hs
    obtain ⟨qs, r', hrun, h⟩ := gvk_spec s hs n r
    rw [hrun]
    rfl
  · intro n r hn
    exact gvk_none_of_nil n hn r

/-- Witness for C10_theorem at concrete inputs. -/
theorem C10_witness :
    (([0] : List Nat) ≠ [] ∧ (gerar_vizinhos_knapsack [0] 10 rngZero).isSome = true)
    ∧ ((1 : Nat) ≤ 10 ∧ gerar_vizinhos_knapsack [] 10 rngZero = none) :=
  ⟨⟨by decide, C10_theorem.1 [0] 10 rngZero (by decide)⟩,
   ⟨by decide, C10_theorem.2 10 rngZero (by decide)⟩⟩
